import Mathlib

/-!
# Verification of the Portfolio app's persistence, auth and query core

Shallow embedding of the repository's core logic:

* `Store`, `Store.get`, `Store.set`, `Store.remove` — a model of the browser
  `localStorage` string-keyed string store.
* `JValue`, `jsonStringify`, `jsonParse` — a model of JSON values,
  `JSON.stringify` and `JSON.parse` (numbers are modelled as integers;
  fractional / exponent number syntax and `\u` escapes are outside the model,
  none of the stored values in the app use them).
* `readLS` / `mountLS` — `src/hooks/useLocalStorage.js` (the `useState`
  initializer, and the mount step including the `useEffect` write-back).
* `login` / `createAccount` — the auth gate in `AuthContext.jsx`.
* `getPosts` / `savePosts` — the posts seeding/normalization/persistence
  helpers of `src/sections/Blog.jsx`.
* `derive` — the `filtered` memo of `Blog.jsx` (search filter, tag filter,
  timestamp sort); `Date.parse` is a parameter `dp : String → Option Int`
  (`none` models `NaN`).
-/

/-! ## localStorage model -/

/-- A model of `localStorage`: an association list from string keys to raw
string values. -/
abbrev Store := List (String × String)

/-- `localStorage.getItem` -/
def Store.get (s : Store) (k : String) : Option String :=
  (List.lookup k s : Option String)

/-- `localStorage.removeItem` -/
def Store.remove (s : Store) (k : String) : Store :=
  List.filter (fun kv => !(kv.1 == k)) s

/-- `localStorage.setItem` (observationally: the new binding wins, other keys
are untouched). -/
def Store.set (s : Store) (k v : String) : Store :=
  (k, v) :: Store.remove s k

theorem Store.get_set_self (s : Store) (k v : String) :
    Store.get (Store.set s k v) k = some v := by
  simp [Store.get, Store.set, List.lookup]

theorem Store.get_remove_self (s : Store) (k : String) :
    Store.get (Store.remove s k) k = none := by
  induction s with
  | nil => rfl
  | cons kv t ih =>
    unfold Store.remove Store.get at *
    by_cases h : kv.1 = k
    · simpa [List.filter, h] using ih
    · simp only [List.filter_cons]
      have hb : (!(kv.1 == k)) = true := by simp [h]
      rw [if_pos hb]
      have hk : (k == kv.1) = false := by
        simp [Ne.symm h]
      simp [List.lookup, hk, ih]

/-! ## JS string primitives

`String.trim` / `String.toLowerCase` / `String.prototype.includes`, modelled
over the underlying character lists (kernel-reducible). -/

def isWsChar (c : Char) : Bool := c = ' ' ∨ c = '\t' ∨ c = '\n' ∨ c = '\r'

/-- `String.prototype.trim` (common whitespace). -/
def jsTrim (s : String) : String :=
  String.mk (((s.data.dropWhile isWsChar).reverse.dropWhile isWsChar).reverse)

/-- `String.prototype.toLowerCase` (ASCII case folding). -/
def jsToLower (s : String) : String := String.mk (s.data.map Char.toLower)

def startsWithL : List Char → List Char → Bool
  | [], _ => true
  | _ :: _, [] => false
  | a :: as, b :: bs => a = b && startsWithL as bs

def containsSub (hay needle : List Char) : Bool :=
  startsWithL needle hay ||
    match hay with
    | [] => false
    | _ :: t => containsSub t needle

/-- `hay.includes(needle)` -/
def strIncludes (hay needle : String) : Bool := containsSub hay.data needle.data

/-- JS `a || b` on an optional string field: first truthy (present and
non-empty) operand, else the fallback. -/
def jsOrS : Option String → String → String
  | some s, b => if s = "" then b else s
  | none, b => b

/-! ## JSON values -/

/-- JSON values as produced by `JSON.parse`; numbers are modelled as
integers. -/
inductive JValue where
  | null : JValue
  | bool : Bool → JValue
  | num : Int → JValue
  | str : String → JValue
  | arr : List JValue → JValue
  | obj : List (String × JValue) → JValue
deriving Repr

/-! ## JSON.stringify model -/

/-- Escape a character for a JSON string literal (quote and backslash; the
app's stored strings contain no control characters). -/
def escChar (c : Char) : List Char :=
  if c = '"' ∨ c = '\\' then ['\\', c] else [c]

def escString (s : String) : String :=
  String.mk (s.data.flatMap escChar)

mutual
/-- `JSON.stringify` on a single value. -/
def jsonStringify : JValue → String
  | JValue.null => "null"
  | JValue.bool true => "true"
  | JValue.bool false => "false"
  | JValue.num n => toString n
  | JValue.str s => "\"" ++ escString s ++ "\""
  | JValue.arr xs => "[" ++ stringifyList xs ++ "]"
  | JValue.obj fs => "\x7b" ++ stringifyFields fs ++ "\x7d"

def stringifyList : List JValue → String
  | [] => ""
  | [x] => jsonStringify x
  | x :: xs => jsonStringify x ++ "," ++ stringifyList xs

def stringifyFields : List (String × JValue) → String
  | [] => ""
  | [(k, v)] => "\"" ++ escString k ++ "\":" ++ jsonStringify v
  | (k, v) :: fs =>
      "\"" ++ escString k ++ "\":" ++ jsonStringify v ++ "," ++ stringifyFields fs
end

/-! ## JSON.parse model

A fuel-indexed recursive-descent parser; `none` models a thrown
`SyntaxError`. -/

def skipWs : List Char → List Char
  | [] => []
  | c :: cs => if isWsChar c then skipWs cs else c :: cs

def expectChars : List Char → List Char → Option (List Char)
  | [], cs => some cs
  | _ :: _, [] => none
  | e :: es, c :: cs => if c = e then expectChars es cs else none

def escCharInv (c : Char) : Option Char :=
  if c = '"' then some '"'
  else if c = '\\' then some '\\'
  else if c = '/' then some '/'
  else if c = 'n' then some '\n'
  else if c = 't' then some '\t'
  else if c = 'r' then some '\r'
  else none

def parseStrAux : Nat → List Char → List Char → Option (String × List Char)
  | 0, _, _ => none
  | _ + 1, [], _ => none
  | fuel + 1, c :: cs, acc =>
    if c = '"' then some (String.mk acc.reverse, cs)
    else if c = '\\' then
      match cs with
      | [] => none
      | e :: cs2 =>
        match escCharInv e with
        | some ec => parseStrAux fuel cs2 (ec :: acc)
        | none => none
    else parseStrAux fuel cs (c :: acc)

def takeDigits : List Char → Nat → Nat × List Char
  | [], acc => (acc, [])
  | c :: cs, acc =>
      if c.isDigit then takeDigits cs (acc * 10 + (c.toNat - 48)) else (acc, c :: cs)

def parseNum : List Char → Option (Int × List Char)
  | [] => none
  | c :: cs =>
      if c.isDigit then
        let nr := takeDigits (c :: cs) 0
        some ((nr.1 : Int), nr.2)
      else none

/-- Add a key to an object under construction: a repeated key keeps its first
position but takes the latest value, as in a JS object literal / `JSON.parse`. -/
def objUpsert (fs : List (String × JValue)) (k : String) (v : JValue) :
    List (String × JValue) :=
  if fs.any (fun kv => kv.1 = k) then
    fs.map (fun kv => if kv.1 = k then (k, v) else kv)
  else fs ++ [(k, v)]

mutual
def parseVal : Nat → List Char → Option (JValue × List Char)
  | 0, _ => none
  | fuel + 1, cs =>
    match skipWs cs with
    | [] => none
    | c :: rest =>
      if c = 'n' then (expectChars ['u', 'l', 'l'] rest).map (fun r => (JValue.null, r))
      else if c = 't' then (expectChars ['r', 'u', 'e'] rest).map (fun r => (JValue.bool true, r))
      else if c = 'f' then (expectChars ['a', 'l', 's', 'e'] rest).map (fun r => (JValue.bool false, r))
      else if c = '"' then (parseStrAux fuel rest []).map (fun sr => (JValue.str sr.1, sr.2))
      else if c = '-' then (parseNum rest).map (fun nr => (JValue.num (-(nr.1)), nr.2))
      else if c.isDigit then (parseNum (c :: rest)).map (fun nr => (JValue.num nr.1, nr.2))
      else if c = '[' then
        match skipWs rest with
        | ']' :: r2 => some (JValue.arr [], r2)
        | r2 => (parseItems fuel r2).map (fun xr => (JValue.arr xr.1, xr.2))
      else if c = '\x7b' then
        match skipWs rest with
        | '\x7d' :: r2 => some (JValue.obj [], r2)
        | r2 => (parseFields fuel r2 []).map (fun xr => (JValue.obj xr.1, xr.2))
      else none

def parseItems : Nat → List Char → Option (List JValue × List Char)
  | 0, _ => none
  | fuel + 1, cs =>
    match parseVal fuel cs with
    | none => none
    | some (v, rest) =>
      match skipWs rest with
      | ',' :: r2 => (parseItems fuel r2).map (fun xr => (v :: xr.1, xr.2))
      | ']' :: r2 => some ([v], r2)
      | _ => none

def parseFields : Nat → List Char → List (String × JValue) →
    Option (List (String × JValue) × List Char)
  | 0, _, _ => none
  | fuel + 1, cs, acc =>
    match skipWs cs with
    | '"' :: r1 =>
      match parseStrAux fuel r1 [] with
      | none => none
      | some (k, r2) =>
        match skipWs r2 with
        | ':' :: r3 =>
          match parseVal fuel r3 with
          | none => none
          | some (v, r4) =>
            match skipWs r4 with
            | ',' :: r5 => parseFields fuel r5 (objUpsert acc k v)
            | '\x7d' :: r5 => some (objUpsert acc k v, r5)
            | _ => none
        | _ => none
    | _ => none
end

/-- `JSON.parse`: `none` models a thrown `SyntaxError`. -/
def jsonParse (s : String) : Option JValue :=
  match parseVal (2 * s.length + 2) s.data with
  | some vr => if skipWs vr.2 = [] then some vr.1 else none
  | none => none

/-! ## useLocalStorage (`src/hooks/useLocalStorage.js`)

```js
const [value, setValue] = useState(() => {
  const raw = localStorage.getItem(key);
  return raw ? JSON.parse(raw) : initial;
});
useEffect(() => {
  localStorage.setItem(key, JSON.stringify(value));
}, [key, value]);
```
-/

/-- The `useState` initializer of `useLocalStorage`: `raw` truthy (present and
non-empty) is parsed — an invalid stored string makes `JSON.parse` throw,
modelled as `Except.error ()`; a falsy `raw` yields `initial`. -/
def readLS (store : Store) (key : String) (initial : JValue) : Except Unit JValue :=
  match Store.get store key with
  | none => Except.ok initial
  | some raw =>
    if raw = "" then Except.ok initial
    else
      match jsonParse raw with
      | some v => Except.ok v
      | none => Except.error ()

/-- Mounting the hook: the initializer computes the state value, then the
`useEffect` (which runs after the first render) writes the current value back
under `key`. Returns the state value and the store after the effect. -/
def mountLS (store : Store) (key : String) (initial : JValue) :
    Except Unit (JValue × Store) :=
  match readLS store key initial with
  | Except.ok v => Except.ok (v, Store.set store key (jsonStringify v))
  | Except.error e => Except.error e

/-! ## Auth gate (`AuthContext.jsx`) -/

structure Account where
  username : String
  password : String
deriving DecidableEq, Repr

/-- Result object `{ ok, created?, error? }` returned by `login` /
`createAccount` (absent fields are `none`). -/
structure AuthRes where
  ok : Bool
  created : Option Bool := none
  error : Option String := none
deriving DecidableEq, Repr

/-- `login(un, pw)` from `AuthContext.jsx`; the auth state is
`(storedAccount, isAuthed)` and the function returns the result object
together with the updated `isAuthed`. -/
def login (storedAccount : Option Account) (isAuthed : Bool)
    (un pw : String) : AuthRes × Bool :=
  let user := jsTrim un
  let input := jsTrim pw
  if user = "" ∨ input = "" then
    ({ ok := false, error := some "Incorrect username or password" }, isAuthed)
  else
    match storedAccount with
    | some acc =>
      if user = acc.username ∧ input = acc.password then
        ({ ok := true }, true)
      else
        ({ ok := false, error := some "Incorrect username or password" }, isAuthed)
    | none =>
      ({ ok := false, error := some "Incorrect username or password" }, isAuthed)

/-- `createAccount(un, pw)` from `AuthContext.jsx`; returns the result object
together with the updated `(storedAccount, isAuthed)`. -/
def createAccount (storedAccount : Option Account) (isAuthed : Bool)
    (un pw : String) : AuthRes × Option Account × Bool :=
  let user := jsTrim un
  let input := jsTrim pw
  if user = "" then
    ({ ok := false, error := some "Username required" }, storedAccount, isAuthed)
  else if input = "" then
    ({ ok := false, error := some "Password required" }, storedAccount, isAuthed)
  else if (match storedAccount with
           | some acc => acc.username == user
           | none => false) then
    ({ ok := false, error := some "Account already exists" }, storedAccount, isAuthed)
  else
    ({ ok := true, created := some true }, some ⟨user, input⟩, true)

/-! ## Posts storage (`Blog.jsx`: `getPosts` / `savePosts`)

`crypto.randomUUID()` is modelled as a supply of strings `gen : Nat → String`
consumed left to right (the call counter is threaded through); `Date.now()` is
the parameter `now`. -/

/-- `p.id` (property access; only objects carry an `id` property). -/
def getId : JValue → Option JValue
  | JValue.obj fs => List.lookup "id" fs
  | _ => none

/-- `p.id ?? …` falls to the right operand iff `p.id` is `undefined` or
`null`. -/
def lacksId (p : JValue) : Bool :=
  match getId p with
  | none => true
  | some JValue.null => true
  | some _ => false

/-- Object spread `{...p}`: objects copy their fields; arrays and strings
spread to index-keyed fields; other primitives spread to nothing. -/
def spreadFields : JValue → List (String × JValue)
  | JValue.obj fs => fs
  | JValue.arr xs => xs.enum.map (fun iv => (toString iv.1, iv.2))
  | JValue.str s => s.data.enum.map (fun ic => (toString ic.1, JValue.str (String.mk [ic.2])))
  | _ => []

/-- Overwrite the value of the `id` key in place (as `{...p, id: v}` does when
`p` already has an `id`). -/
def setIdField (fs : List (String × JValue)) (v : JValue) : List (String × JValue) :=
  fs.map (fun kv => if kv.1 = "id" then ("id", v) else kv)

/-- `(p) => ({ ...p, id: p.id ?? crypto.randomUUID() })` -/
def normalizeOne (gen : Nat → String) (c : Nat) (p : JValue) : JValue × Nat :=
  match getId p with
  | some JValue.null => (JValue.obj (setIdField (spreadFields p) (JValue.str (gen c))), c + 1)
  | some v => (JValue.obj (setIdField (spreadFields p) v), c)
  | none => (JValue.obj (spreadFields p ++ [("id", JValue.str (gen c))]), c + 1)

/-- `raw.map((p) => ({ ...p, id: p.id ?? crypto.randomUUID() }))` with the
id-supply counter threaded left to right. -/
def normalizePosts (gen : Nat → String) : Nat → List JValue → List JValue × Nat
  | c, [] => ([], c)
  | c, p :: ps =>
    let qc := normalizeOne gen c p
    let rest := normalizePosts gen qc.2 ps
    (qc.1 :: rest.1, rest.2)

/-- `makeDefaults` from `getPosts` (the three seeded posts). -/
def makeDefaults (gen : Nat → String) (c : Nat) (now : Int) : List JValue × Nat :=
  ([JValue.obj
      [("id", JValue.str (gen c)),
       ("title", JValue.str "Welcome to the Blog"),
       ("body", JValue.str "This is your first post. You can edit or delete it, or create your own. Pro tip: add tags like #intro to make filtering easier."),
       ("tags", JValue.arr [JValue.str "intro", JValue.str "welcome"]),
       ("image", JValue.str "/placeholder.jpg"),
       ("createdAt", JValue.num now)],
    JValue.obj
      [("id", JValue.str (gen (c + 1))),
       ("title", JValue.str "Adding Images to Posts"),
       ("body", JValue.str "Attach a photo to your post. Large images are downscaled in some places to keep things snappy."),
       ("tags", JValue.arr [JValue.str "howto", JValue.str "images"]),
       ("image", JValue.str "/placeholder.jpg"),
       ("createdAt", JValue.num (now - 1000 * 60 * 60 * 24))],
    JValue.obj
      [("id", JValue.str (gen (c + 2))),
       ("title", JValue.str "Tag Filtering Demo"),
       ("body", JValue.str "Use the tag chips above the list to filter posts. Try clicking on #demo or #tips."),
       ("tags", JValue.arr [JValue.str "demo", JValue.str "tips"]),
       ("image", JValue.str "/placeholder.jpg"),
       ("createdAt", JValue.num (now - 1000 * 60 * 60 * 48))]],
   c + 3)

/-- `savePosts(posts)`: an empty array removes the key, otherwise the
serialized array is stored under `"posts"`. -/
def savePosts (store : Store) (posts : List JValue) : Store :=
  if posts.isEmpty then Store.remove store "posts"
  else Store.set store "posts" (jsonStringify (JValue.arr posts))

/-- `getPosts()`:
`JSON.parse(localStorage.getItem("posts") || "[]")`; a non-empty parsed array
is normalized (missing ids assigned), anything else — including a parse
error, caught by the surrounding `try` — seeds, persists and returns the
defaults. Returns `(posts, store after, id-supply counter after)`. -/
def getPosts (gen : Nat → String) (now : Int) (c : Nat) (store : Store) :
    List JValue × Store × Nat :=
  let rawStr := match Store.get store "posts" with
                | none => "[]"
                | some s => if s = "" then "[]" else s
  match jsonParse rawStr with
  | some (JValue.arr items) =>
    if items.isEmpty then
      let dc := makeDefaults gen c now
      (dc.1, savePosts store dc.1, dc.2)
    else
      let nc := normalizePosts gen c items
      (nc.1, store, nc.2)
  | some _ =>
    let dc := makeDefaults gen c now
    (dc.1, savePosts store dc.1, dc.2)
  | none =>
    let dc := makeDefaults gen c now
    (dc.1, savePosts store dc.1, dc.2)

/-! ## Query engine (`Blog.jsx`: the `filtered` memo)

In-memory posts as the component sees them; a missing or non-array `tags`
field is `none`, `createdAt` is a number, a string, or absent. -/

structure Post where
  id : Option String := none
  title : Option String := none
  body : Option String := none
  content : Option String := none
  excerpt : Option String := none
  tags : Option (List String) := none
  image : Option String := none
  createdAt : Option (Int ⊕ String) := none
  date : Option String := none
  publishedAt : Option String := none
deriving DecidableEq, Repr

/-- `Array.isArray(p.tags) ? p.tags : []` -/
def tagsOf (p : Post) : List String := p.tags.getD []

/-- The search predicate of the `filtered` memo (title, first truthy of
`content`/`body`/`excerpt`, and tags, all lowercased). -/
def matchesSearch (needle : String) (p : Post) : Bool :=
  let title := jsToLower (jsOrS p.title "")
  let content := jsToLower (jsOrS p.content (jsOrS p.body (jsOrS p.excerpt "")))
  let tags := (tagsOf p).map jsToLower
  strIncludes title needle || strIncludes content needle ||
    tags.any (fun t => strIncludes t needle)

/-- `p.createdAt` viewed as the last operand of
`p.date || p.publishedAt || p.createdAt` (a number was already handled). -/
def caStr : Option (Int ⊕ String) → Option String
  | some (Sum.inr s) => some s
  | _ => none

/-- JS `a || b` keeping track of absence: first truthy operand, else the
right operand as-is. -/
def jsOrO : Option String → Option String → Option String
  | some s, b => if s = "" then b else some s
  | none, b => b

/-- `getTime` from the `filtered` memo; `dp` models `Date.parse`
(`none` = `NaN`). -/
def getTime (dp : String → Option Int) (p : Post) : Int :=
  match p.createdAt with
  | some (Sum.inl n) => n
  | _ =>
    match jsOrO p.date (jsOrO p.publishedAt (caStr p.createdAt)) with
    | some s => (dp s).getD 0
    | none => 0

/-- The comparator `(a, b) => sort === "newest" ? getTime(b) - getTime(a)
: getTime(a) - getTime(b)` viewed as the ordering it sorts into. -/
def sortLe (dp : String → Option Int) (so : String) (a b : Post) : Prop :=
  if so = "newest" then getTime dp b ≤ getTime dp a else getTime dp a ≤ getTime dp b

instance sortLeDec (dp : String → Option Int) (so : String) :
    DecidableRel (sortLe dp so) := fun a b => by
  unfold sortLe; infer_instance

instance sortLeTotal (dp : String → Option Int) (so : String) :
    IsTotal Post (sortLe dp so) := by
  constructor
  intro a b
  unfold sortLe
  by_cases h : so = "newest" <;> simp [h] <;> omega

instance sortLeTrans (dp : String → Option Int) (so : String) :
    IsTrans Post (sortLe dp so) := by
  constructor
  intro a b c hab hbc
  unfold sortLe at *
  by_cases h : so = "newest" <;> simp [h] at * <;> omega

/-- The `filtered` memo of `Blog.jsx`: search filter, tag filter, then a
stable sort by the comparator (JS `Array.prototype.sort` is stable). -/
def derive (dp : String → Option Int) (posts : List Post) (search : String)
    (selectedTags : List String) (sort : String) : List Post :=
  let needle := jsToLower (jsTrim search)
  let out1 := if needle = "" then posts else posts.filter (matchesSearch needle)
  let out2 := if selectedTags.isEmpty then out1
              else out1.filter (fun p => selectedTags.all (fun t => (tagsOf p).contains t))
  List.insertionSort (sortLe dp sort) out2

/-! ## Store-level lemmas for `savePosts` -/

theorem savePosts_get_of_ne_nil (store : Store) (posts : List JValue)
    (h : posts ≠ []) :
    Store.get (savePosts store posts) "posts" =
      some (jsonStringify (JValue.arr posts)) := by
  unfold savePosts
  rw [if_neg (by simpa [List.isEmpty_iff] using h)]
  exact Store.get_set_self _ _ _

theorem savePosts_get_of_nil (store : Store) :
    Store.get (savePosts store []) "posts" = none := by
  unfold savePosts
  simpa using Store.get_remove_self store "posts"

/-! ## Claim theorems -/

/-- C1 counterexample. A read of the untouched key `"theme"` with default
`"dark"` returns the default, but mounting the hook writes the serialized
default back: afterwards the durable store holds an entry for `"theme"`, so
the read is not free of durable side effects. -/
theorem untouched_read_creates_entry_cx :
    Store.get ([] : Store) "theme" = none ∧
    mountLS [] "theme" (JValue.str "dark") =
      Except.ok (JValue.str "dark", [("theme", "\"dark\"")]) ∧
    Store.get [("theme", "\"dark\"")] "theme" = some "\"dark\"" :=
  ⟨rfl, rfl, rfl⟩

/-- C1 amended. A read of an untouched key returns a value deep-equal to
the default and the read itself stores nothing, but the hook's mount effect
immediately persists the current value: after mounting on an untouched key the
store holds the serialized default under that key (the write is eager, not
deferred to the first explicit set). -/
theorem untouched_read_default_then_eager_persist
    (store : Store) (k : String) (d : JValue) (h : Store.get store k = none) :
    readLS store k d = Except.ok d ∧
    mountLS store k d = Except.ok (d, Store.set store k (jsonStringify d)) ∧
    Store.get (Store.set store k (jsonStringify d)) k =
      some (jsonStringify d) := by
  refine ⟨?_, ?_, Store.get_set_self _ _ _⟩ <;> simp [readLS, mountLS, h]

theorem untouched_read_default_then_eager_persist_witness :
    Store.get ([] : Store) "theme" = none ∧
    readLS [] "theme" (JValue.str "dark") = Except.ok (JValue.str "dark") := by
  refine ⟨rfl, ?_⟩
  exact (untouched_read_default_then_eager_persist [] "theme"
    (JValue.str "dark") rfl).1

/-- C2 counterexample. With the corrupt (non-JSON) string `"not json"`
stored under `"posts"`, the hook's read does not return the default: the
`JSON.parse` failure propagates (there is no catch in `useLocalStorage`). -/
theorem read_corrupt_raises_cx :
    jsonParse "not json" = none ∧
    readLS [("posts", "not json")] "posts" JValue.null = Except.error () :=
  ⟨rfl, rfl⟩

/-- C2 amended. If the stored string under `k` is not valid JSON, the
generic store read (`useLocalStorage`) propagates the parse error to the
caller instead of returning the default; the posts loader `getPosts`, by
contrast, catches the parse failure and returns (and persists) freshly seeded
defaults. -/
theorem read_parse_error_propagates
    (store : Store) (k : String) (d : JValue) (raw : String)
    (h1 : Store.get store k = some raw) (h2 : raw ≠ "")
    (h3 : jsonParse raw = none) :
    readLS store k d = Except.error () ∧
    (∀ gen now c, Store.get store "posts" = some raw →
      (getPosts gen now c store).1 = (makeDefaults gen c now).1 ∧
      Store.get (getPosts gen now c store).2.1 "posts" =
        some (jsonStringify (JValue.arr (makeDefaults gen c now).1))) := by
  constructor
  · unfold readLS
    simp [h1, h2, h3]
  · intro gen now c hp
    unfold getPosts
    simp only [hp, if_neg h2, h3]
    exact ⟨trivial, savePosts_get_of_ne_nil _ _ (by simp [makeDefaults])⟩

theorem read_parse_error_propagates_witness :
    Store.get ([("k", "not json")] : Store) "k" = some "not json" ∧
    jsonParse "not json" = none ∧
    readLS [("k", "not json")] "k" JValue.null = Except.error () := by
  refine ⟨rfl, rfl, ?_⟩
  exact (read_parse_error_propagates [("k", "not json")] "k" JValue.null
    "not json" rfl (by decide) rfl).1

/-- C3 counterexample. With the account `{alice, secret}` stored, creating
a differently-named account `bob` is not rejected: it succeeds and silently
overwrites the stored slot, contradicting the single-account-policy claim. -/
theorem createAccount_second_account_cx :
    (createAccount (some ⟨"alice", "secret"⟩) false "bob" "pw").1.ok = true ∧
    (createAccount (some ⟨"alice", "secret"⟩) false "bob" "pw").2.1 =
      some ⟨"bob", "pw"⟩ := by
  decide

/-- C3 amended. While an account is stored, `createAccount` with a
non-empty trimmed username and password fails with `AccountExists` only when
the new username equals the stored one; with a different username it succeeds,
overwrites the stored slot with the new credentials and sets the session. -/
theorem createAccount_single_slot
    (a : Account) (authed : Bool) (un pw : String)
    (hu : jsTrim un ≠ "") (hp : jsTrim pw ≠ "") :
    (a.username = jsTrim un →
      createAccount (some a) authed un pw =
        ({ ok := false, error := some "Account already exists" },
          some a, authed)) ∧
    (a.username ≠ jsTrim un →
      createAccount (some a) authed un pw =
        ({ ok := true, created := some true },
          some ⟨jsTrim un, jsTrim pw⟩, true)) := by
  constructor <;> intro hd <;> unfold createAccount <;> simp [hu, hp, hd]

theorem createAccount_single_slot_witness :
    jsTrim "bob" ≠ "" ∧
    createAccount (some ⟨"alice", "secret"⟩) false "bob" "pw" =
      ({ ok := true, created := some true },
        some ⟨"bob", "pw"⟩, true) := by
  refine ⟨by decide, ?_⟩
  exact (createAccount_single_slot ⟨"alice", "secret"⟩ false "bob" "pw"
    (by decide) (by decide)).2 (by decide)

/-- C7. For a non-empty trimmed username and password, a login with no
stored account and a login against a mismatching stored account (wrong
username or wrong password) both fail, and both return the identical result
object, so the outcome does not reveal whether an account exists. -/
theorem login_failure_uniform
    (a : Account) (authed : Bool) (un pw : String)
    (hu : jsTrim un ≠ "") (hp : jsTrim pw ≠ "")
    (hmm : jsTrim un ≠ a.username ∨ jsTrim pw ≠ a.password) :
    (login none authed un pw).1.ok = false ∧
    (login (some a) authed un pw).1.ok = false ∧
    (login (some a) authed un pw).1 = (login none authed un pw).1 := by
  have h1 : ¬(jsTrim un = "" ∨ jsTrim pw = "") := by tauto
  have h2 : ¬(jsTrim un = a.username ∧ jsTrim pw = a.password) := by tauto
  unfold login
  simp [h1, h2]

theorem login_failure_uniform_witness :
    jsTrim "alice" ≠ "" ∧ jsTrim "wrong" ≠ "" ∧
    (login (some ⟨"alice", "secret"⟩) false "alice" "wrong").1 =
      (login none false "alice" "wrong").1 := by
  refine ⟨by decide, by decide, ?_⟩
  exact (login_failure_uniform ⟨"alice", "secret"⟩ false "alice" "wrong"
    (by decide) (by decide) (Or.inr (by decide))).2.2

/-- C8. `savePosts` with an empty list removes the `"posts"` entry
entirely; with a non-empty list it persists the serialized array under
`"posts"`. -/
theorem savePosts_empty_removes_key (store : Store) (posts : List JValue) :
    (posts = [] → Store.get (savePosts store posts) "posts" = none) ∧
    (posts ≠ [] → Store.get (savePosts store posts) "posts" =
      some (jsonStringify (JValue.arr posts))) := by
  constructor
  · rintro rfl
    exact savePosts_get_of_nil store
  · intro h
    exact savePosts_get_of_ne_nil store posts h

theorem savePosts_empty_removes_key_witness :
    Store.get (savePosts [("posts", "[1]")] []) "posts" = none ∧
    Store.get (savePosts [] [JValue.num 1]) "posts" = some "[1]" := by
  constructor
  · exact (savePosts_empty_removes_key [("posts", "[1]")] []).1 rfl
  · exact (savePosts_empty_removes_key [] [JValue.num 1]).2
      (by simp)

/-! ## Query-engine lemmas and claim theorems -/

theorem ite_filter_sub {α : Type} (c : Prop) [Decidable c] (l : List α) (p : α → Bool) :
    List.Sublist (if c then l else l.filter p) l := by
  split
  · exact List.Sublist.refl _
  · exact List.filter_sublist _

/-- Membership in the derived list: the sort permutes, the two filters
restrict. -/
theorem mem_derive_iff (dp : String → Option Int) (posts : List Post)
    (s : String) (sel : List String) (so : String) (r : Post) :
    r ∈ derive dp posts s sel so ↔
      r ∈ posts ∧
      (jsToLower (jsTrim s) = "" ∨ matchesSearch (jsToLower (jsTrim s)) r = true) ∧
      (sel = [] ∨ sel.all (fun t => (tagsOf r).contains t) = true) := by
  unfold derive
  rw [List.mem_insertionSort]
  by_cases h1 : jsToLower (jsTrim s) = "" <;> by_cases h2 : sel = []
  all_goals simp [h1, h2, List.mem_filter, List.isEmpty_iff]
  all_goals tauto

/-- C5. With a non-empty (trimmed, case-folded) search text and no tag
selection, `derive` keeps a record iff the case-folded search text is a
substring of its case-folded title, of its primary content field (the first
truthy of `content`, `body`, `excerpt`), or of one of its case-folded tags;
everything else is excluded. -/
theorem derive_search_keeps_iff (dp : String → Option Int) (posts : List Post)
    (s so : String) (r : Post) (h : jsToLower (jsTrim s) ≠ "") :
    r ∈ derive dp posts s [] so ↔
      r ∈ posts ∧
        (strIncludes (jsToLower (jsOrS r.title "")) (jsToLower (jsTrim s)) = true ∨
         strIncludes
           (jsToLower (jsOrS r.content (jsOrS r.body (jsOrS r.excerpt ""))))
           (jsToLower (jsTrim s)) = true ∨
         ∃ t ∈ tagsOf r, strIncludes (jsToLower t) (jsToLower (jsTrim s)) = true) := by
  rw [mem_derive_iff]
  simp [h, matchesSearch]
  tauto

def dpC : String → Option Int :=
  fun s => if s = "2020-06-01" then some 1590969600000 else none

def catsW : Post := { title := some "Cats", tags := some ["pets"], createdAt := some (Sum.inl 100) }

def dogsW : Post := { title := some "Dogs", tags := some ["pets", "fun"], createdAt := some (Sum.inl 200) }

def noTagsW : Post := { title := some "Plain", createdAt := some (Sum.inl 50) }

theorem derive_search_keeps_iff_witness :
    dogsW ∈ derive dpC [catsW, dogsW] "dog" [] "newest" :=
  (derive_search_keeps_iff dpC [catsW, dogsW] "dog" "newest" dogsW
    (by decide)).mpr ⟨by simp, Or.inl (by decide)⟩

/-- C6. With a non-empty tag selection (and no search text), `derive` keeps
exactly the records whose tag set contains every selected tag; a record whose
`tags` field is missing or not an array contributes zero tags and is
excluded. -/
theorem derive_tag_filter_iff (dp : String → Option Int) (posts : List Post)
    (sel : List String) (so : String) (r : Post) (h : sel ≠ []) :
    (r ∈ derive dp posts "" sel so ↔ r ∈ posts ∧ ∀ t ∈ sel, t ∈ tagsOf r) ∧
    (tagsOf r = [] → r ∉ derive dp posts "" sel so) := by
  have key : r ∈ derive dp posts "" sel so ↔ r ∈ posts ∧ ∀ t ∈ sel, t ∈ tagsOf r := by
    rw [mem_derive_iff]
    have he : jsToLower (jsTrim "") = "" := rfl
    simp [he, h, List.all_eq_true]
  refine ⟨key, ?_⟩
  intro ht hr
  rcases sel with _ | ⟨t, ts⟩
  · exact h rfl
  · have := (key.mp hr).2 t (by simp)
    rw [ht] at this
    exact absurd this (List.not_mem_nil t)

theorem derive_tag_filter_iff_witness :
    dogsW ∈ derive dpC [catsW, dogsW, noTagsW] "" ["pets", "fun"] "newest" ∧
    noTagsW ∉ derive dpC [catsW, dogsW, noTagsW] "" ["pets", "fun"] "newest" := by
  constructor
  · exact (derive_tag_filter_iff dpC [catsW, dogsW, noTagsW] ["pets", "fun"]
      "newest" dogsW (by simp)).1.mpr ⟨by simp, by decide⟩
  · exact (derive_tag_filter_iff dpC [catsW, dogsW, noTagsW] ["pets", "fun"]
      "newest" noTagsW (by simp)).2 rfl

/-- C10. `derive` only filters and reorders: every record of the output is a
record of the input, and no record occurs more often in the output than in
the input. -/
theorem derive_no_invention (dp : String → Option Int) (posts : List Post)
    (s : String) (sel : List String) (so : String) :
    (∀ r : Post, (derive dp posts s sel so).count r ≤ posts.count r) ∧
    (∀ r : Post, r ∈ derive dp posts s sel so → r ∈ posts) := by
  unfold derive
  have h1 := ite_filter_sub (jsToLower (jsTrim s) = "") posts
    (matchesSearch (jsToLower (jsTrim s)))
  have h2 := ite_filter_sub (sel.isEmpty = true)
    (if jsToLower (jsTrim s) = "" then posts
     else posts.filter (matchesSearch (jsToLower (jsTrim s))))
    (fun p => sel.all (fun t => (tagsOf p).contains t))
  have h3 := h2.trans h1
  constructor
  · intro r
    rw [(List.perm_insertionSort _ _).count_eq]
    exact h3.count_le r
  · intro r hr
    rw [List.mem_insertionSort] at hr
    exact h3.subset hr

/-- The sort-key resolver exactly as the claim words it: `date`,
`publishedAt`, `createdAt` are tried as date strings in that priority and the
first one that parses successfully is used; if none parses the key is 0. -/
def getTimeClaim (dp : String → Option Int) (p : Post) : Int :=
  match p.createdAt with
  | some (Sum.inl n) => n
  | _ =>
    match [p.date, p.publishedAt, caStr p.createdAt].filterMap (fun o => o.bind dp) with
    | t :: _ => t
    | [] => 0

/-- The resolver as amended: the first truthy (present, non-empty) of `date`,
`publishedAt`, `createdAt` is parsed; an unparseable candidate or the absence
of any candidate resolves to 0 (no fallback to later fields). -/
def getTimeFixed (dp : String → Option Int) (p : Post) : Int :=
  match p.createdAt with
  | some (Sum.inl n) => n
  | _ =>
    match List.find? (fun s => s != "") ([p.date, p.publishedAt, caStr p.createdAt].filterMap id) with
    | some s => (dp s).getD 0
    | none => 0

theorem getTime_eq_fixed (dp : String → Option Int) (hdp : dp "" = none) (p : Post) :
    getTime dp p = getTimeFixed dp p := by
  unfold getTime getTimeFixed
  rcases hca : p.createdAt with _ | ca
  · rcases hd : p.date with _ | sd <;> rcases hpub : p.publishedAt with _ | sp
    all_goals simp [jsOrO, caStr, hca] <;> split_ifs <;> simp_all [hdp]
  · rcases ca with n | sc
    · rfl
    · rcases hd : p.date with _ | sd <;> rcases hpub : p.publishedAt with _ | sp <;>
        by_cases hsc : sc = "" <;>
          simp only [jsOrO, caStr, hca, hsc] <;> first
            | (split_ifs <;> simp_all [hdp])
            | simp_all [hdp]

def pC : Post := { title := some "A", date := some "not-a-date", publishedAt := some "2020-06-01" }

def qC : Post := { title := some "B", createdAt := some (Sum.inl 10) }

/-- C4 counterexample. `pC` has an unparseable `date` and a parseable
`publishedAt`; the claimed resolver would fall through to `publishedAt`
(epoch 1590969600000), but the code parses only the first truthy field and
resolves `pC` to 0, so the `"oldest"` derivation puts `pC` before `qC`
(key 10) — not ascending by the claimed key. -/
theorem derive_sortkey_cx :
    derive dpC [pC, qC] "" [] "oldest" = [pC, qC] ∧
    getTimeClaim dpC qC < getTimeClaim dpC pC ∧
    getTime dpC pC = 0 :=
  ⟨rfl, by decide, rfl⟩

/-- C4 amended. The sort key is: a numeric `createdAt` directly; otherwise
the first truthy of `date`, `publishedAt`, `createdAt` parsed as a date
string, resolving to epoch 0 if that candidate fails to parse or no candidate
is present (later fields are not tried). The derived list is ordered
descending by this key for `"newest"` and ascending otherwise. -/
theorem derive_sort_order (dp : String → Option Int) (posts : List Post)
    (s : String) (sel : List String) (so : String) (hdp : dp "" = none) :
    List.Sorted (fun a b : Post =>
        if so = "newest" then getTimeFixed dp b ≤ getTimeFixed dp a
        else getTimeFixed dp a ≤ getTimeFixed dp b)
      (derive dp posts s sel so) ∧
    (∀ p : Post, getTime dp p = getTimeFixed dp p) := by
  refine ⟨?_, getTime_eq_fixed dp hdp⟩
  have hs : List.Sorted (sortLe dp so) (derive dp posts s sel so) :=
    List.sorted_insertionSort _ _
  refine hs.imp ?_
  intro a b hab
  simpa [sortLe, getTime_eq_fixed dp hdp] using hab

theorem derive_sort_order_witness :
    dpC "" = none ∧
    List.Sorted (fun a b : Post =>
        if "oldest" = "newest" then getTimeFixed dpC b ≤ getTimeFixed dpC a
        else getTimeFixed dpC a ≤ getTimeFixed dpC b)
      (derive dpC [pC, qC] "" [] "oldest") :=
  ⟨rfl, (derive_sort_order dpC [pC, qC] "" [] "oldest" rfl).1⟩

/-! ## Normalization on load (`getPosts`, claim C9) -/

/-- Keys of an object are pairwise distinct (always true of objects produced
by `JSON.parse`). -/
def nodupKeys : List String → Bool
  | [] => true
  | k :: ks => !(ks.contains k) && nodupKeys ks

/-- A stored record in the shape `JSON.parse` produces: an object with
pairwise-distinct keys. -/
def cleanObj : JValue → Bool
  | JValue.obj fs => nodupKeys (fs.map Prod.fst)
  | _ => false

/-- Every field of a record except `id`. -/
def sansId : JValue → List (String × JValue)
  | JValue.obj fs => fs.filter (fun kv => !(kv.1 == "id"))
  | _ => []

/-- The string ids already present in a stored collection. -/
def idStrs (items : List JValue) : List String :=
  items.filterMap (fun p =>
    match getId p with
    | some (JValue.str s) => some s
    | _ => none)

theorem normalizeOne_counter (gen : Nat → String) (c : Nat) (p : JValue) :
    (normalizeOne gen c p).2 = c + (if lacksId p then 1 else 0) := by
  unfold normalizeOne lacksId
  rcases getId p with _ | v
  · simp
  · cases v <;> simp

theorem normalizePosts_length (gen : Nat → String) :
    ∀ (l : List JValue) (c : Nat), (normalizePosts gen c l).1.length = l.length := by
  intro l
  induction l with
  | nil => intro c; rfl
  | cons p ps ih =>
    intro c
    unfold normalizePosts
    simp [ih]

theorem normalizePosts_getD (gen : Nat → String) :
    ∀ (l : List JValue) (c i : Nat), i < l.length →
      (normalizePosts gen c l).1.getD i JValue.null =
        (normalizeOne gen (c + (l.take i).countP lacksId) (l.getD i JValue.null)).1 := by
  intro l
  induction l with
  | nil => intro c i h; simp at h
  | cons p ps ih =>
    intro c i h
    unfold normalizePosts
    cases i with
    | zero => simp
    | succ j =>
      simp only [List.getD_cons_succ]
      rw [ih ((normalizeOne gen c p).2) j (by simpa using h)]
      rw [normalizeOne_counter]
      have ht : (p :: ps).take (j + 1) = p :: ps.take j := rfl
      rw [ht, List.countP_cons]
      by_cases hl : lacksId p
      all_goals simp [hl]
      all_goals ring_nf

theorem setIdField_of_not_mem (t : List (String × JValue)) (v : JValue)
    (h : "id" ∉ t.map Prod.fst) : setIdField t v = t := by
  induction t with
  | nil => rfl
  | cons kv tl ih =>
    simp only [List.map_cons, List.mem_cons] at h
    push_neg at h
    unfold setIdField at *
    simp only [List.map_cons]
    rw [if_neg (fun hh => h.1 hh.symm)]
    rw [ih h.2]

theorem lookup_setIdField (fs : List (String × JValue)) (v w : JValue)
    (h : List.lookup "id" fs = some w) :
    List.lookup "id" (setIdField fs v) = some v := by
  induction fs with
  | nil => simp at h
  | cons kv tl ih =>
    by_cases hk : kv.1 = "id"
    · unfold setIdField
      simp only [List.map_cons, if_pos hk]
      simp [List.lookup_cons]
    · unfold setIdField at *
      simp only [List.map_cons, if_neg hk]
      rcases kv with ⟨k, w2⟩
      simp only at hk
      rw [List.lookup_cons] at h ⊢
      have hbeq : ("id" == k) = false := by
        simp only [beq_eq_false_iff_ne, ne_eq]
        exact fun hh => hk hh.symm
      simp only [hbeq] at h ⊢
      exact ih h

theorem lookup_eq_none_of_not_mem (fs : List (String × JValue))
    (h : "id" ∉ fs.map Prod.fst) : List.lookup "id" fs = none := by
  induction fs with
  | nil => rfl
  | cons kv tl ih =>
    simp only [List.map_cons, List.mem_cons] at h
    push_neg at h
    rw [List.lookup_cons]
    have hbeq : ("id" == kv.1) = false := by simp [h.1]
    simp only [hbeq]
    exact ih h.2

theorem lookup_append_right_of_not_mem (fs : List (String × JValue)) (v : JValue)
    (h : "id" ∉ fs.map Prod.fst) :
    List.lookup "id" (fs ++ [("id", v)]) = some v := by
  induction fs with
  | nil => simp [List.lookup_cons]
  | cons kv tl ih =>
    simp only [List.map_cons, List.mem_cons] at h
    push_neg at h
    rw [List.cons_append, List.lookup_cons]
    have hbeq : ("id" == kv.1) = false := by simp [h.1]
    simp only [hbeq]
    exact ih h.2

theorem sansId_setIdField (fs : List (String × JValue)) (v : JValue) :
    List.filter (fun kv => !(kv.1 == "id")) (setIdField fs v) =
      List.filter (fun kv => !(kv.1 == "id")) fs := by
  induction fs with
  | nil => rfl
  | cons kv tl ih =>
    unfold setIdField at *
    by_cases hk : kv.1 = "id"
    · simp only [List.map_cons, if_pos hk, List.filter_cons]
      have h1 : (!(("id" : String) == "id")) = false := by simp
      have h2 : (!(kv.1 == "id")) = false := by simp [hk]
      simp only [h1, h2, if_neg (by simp : ¬(false = true)), ih]
    · simp only [List.map_cons, if_neg hk, List.filter_cons]
      have h2 : (!(kv.1 == "id")) = true := by simp [hk]
      simp only [h2, ih]

theorem setIdField_self (fs : List (String × JValue)) (v : JValue)
    (hn : nodupKeys (fs.map Prod.fst) = true)
    (h : List.lookup "id" fs = some v) : setIdField fs v = fs := by
  induction fs with
  | nil => simp at h
  | cons kv tl ih =>
    rcases kv with ⟨k, w⟩
    unfold nodupKeys at hn
    simp only [List.map_cons, Bool.and_eq_true, Bool.not_eq_true'] at hn
    rw [List.lookup_cons] at h
    by_cases hk : k = "id"
    · have hbeq : ("id" == k) = true := by simp [hk]
      simp only [hbeq] at h
      have hw : w = v := by injection h
      have hnm : "id" ∉ tl.map Prod.fst := by
        intro hm
        have hcon := hn.1
        rw [hk] at hcon
        rw [List.contains_eq_any_beq] at hcon
        have : (tl.map Prod.fst).any (fun x => "id" == x) = true := by
          rw [List.any_eq_true]
          exact ⟨"id", hm, by simp⟩
        rw [this] at hcon
        cases hcon
      unfold setIdField
      simp only [List.map_cons, if_pos hk]
      rw [hw, hk]
      exact congrArg (fun t => ("id", v) :: t) (setIdField_of_not_mem tl v hnm)
    · have hbeq : ("id" == k) = false := by
        simp only [beq_eq_false_iff_ne, ne_eq]
        exact fun hh => hk hh.symm
      simp only [hbeq] at h
      unfold setIdField at *
      simp only [List.map_cons, if_neg hk]
      rw [ih hn.2 h]

theorem not_mem_of_lookup_eq_none (fs : List (String × JValue))
    (h : List.lookup "id" fs = none) : "id" ∉ fs.map Prod.fst := by
  induction fs with
  | nil => simp
  | cons kv tl ih =>
    rw [List.lookup_cons] at h
    by_cases hk : ("id" == kv.1) = true
    · simp only [hk] at h
      exact Option.noConfusion h
    · simp only [Bool.not_eq_true] at hk
      simp only [hk] at h
      simp only [List.map_cons, List.mem_cons]
      push_neg
      refine ⟨?_, ih h⟩
      simpa using hk

theorem normalizeOne_keep (gen : Nat → String) (c : Nat) (p : JValue)
    (hc : cleanObj p = true) (hl : lacksId p = false) :
    (normalizeOne gen c p).1 = p := by
  rcases p with _ | b | n | s | xs | fs <;> simp [cleanObj] at hc
  rcases hid : List.lookup "id" fs with _ | v
  · unfold lacksId getId at hl
    simp only [hid] at hl
    cases hl
  · have hv : ¬(v = JValue.null) := by
      unfold lacksId getId at hl
      simp only [hid] at hl
      intro hh
      rw [hh] at hl
      cases hl
    unfold normalizeOne getId
    simp only [hid]
    rcases v with _ | b | n | s | xs | gs
    · exact absurd rfl hv
    all_goals
      simp only [spreadFields]
      rw [setIdField_self fs _ hc hid]

theorem normalizeOne_lack (gen : Nat → String) (c : Nat) (p : JValue)
    (hc : cleanObj p = true) (hl : lacksId p = true) :
    sansId (normalizeOne gen c p).1 = sansId p ∧
    getId (normalizeOne gen c p).1 = some (JValue.str (gen c)) := by
  rcases p with _ | b | n | s | xs | fs <;> simp [cleanObj] at hc
  rcases hid : List.lookup "id" fs with _ | v
  · have hnm : "id" ∉ fs.map Prod.fst := not_mem_of_lookup_eq_none fs hid
    unfold normalizeOne getId
    simp only [hid]
    constructor
    · simp only [sansId, spreadFields, List.filter_append]
      simp
    · simp only [spreadFields]
      exact lookup_append_right_of_not_mem fs _ hnm
  · have hv : v = JValue.null := by
      unfold lacksId getId at hl
      simp only [hid] at hl
      rcases v with _ | b | n | s | xs | gs
      · rfl
      all_goals cases hl
    subst hv
    unfold normalizeOne getId
    simp only [hid]
    constructor
    · simp only [sansId, spreadFields]
      exact sansId_setIdField fs _
    · simp only [spreadFields]
      exact lookup_setIdField fs _ _ hid

theorem countP_take_succ (l : List JValue) (i : Nat) (hi : i < l.length) :
    (l.take (i + 1)).countP lacksId =
      (l.take i).countP lacksId +
        (if lacksId (l.getD i JValue.null) then 1 else 0) := by
  rw [List.take_succ, List.countP_append]
  congr 1
  rw [List.getElem?_eq_getElem hi]
  simp [List.countP_cons, List.getD_eq_getElem?_getD, List.getElem?_eq_getElem hi]

theorem countP_take_mono (l : List JValue) (i j : Nat) (hij : i ≤ j) :
    (l.take i).countP lacksId ≤ (l.take j).countP lacksId := by
  have h1 : l.take i = (l.take j).take i := by
    rw [List.take_take, Nat.min_eq_left hij]
  rw [h1]
  exact (List.take_sublist _ _).countP_le _

theorem countP_take_strict (l : List JValue) (i j : Nat) (hij : i < j) (hj : j ≤ l.length)
    (hi : lacksId (l.getD i JValue.null) = true) :
    (l.take i).countP lacksId < (l.take j).countP lacksId := by
  have h1 := countP_take_succ l i (lt_of_lt_of_le hij hj)
  have h2 := countP_take_mono l (i + 1) j hij
  rw [hi] at h1
  simp only [if_pos] at h1
  omega

theorem countP_take_lt_total (l : List JValue) (i : Nat) (hi : i < l.length)
    (h : lacksId (l.getD i JValue.null) = true) :
    (l.take i).countP lacksId < l.countP lacksId := by
  have hx := countP_take_strict l i l.length hi le_rfl h
  rwa [List.take_length] at hx

theorem getD_mem (l : List JValue) (i : Nat) (hi : i < l.length) :
    l.getD i JValue.null ∈ l := by
  rw [List.getD_eq_getElem?_getD, List.getElem?_eq_getElem hi]
  exact List.getElem_mem hi

/-- C9. Loading a stored non-empty collection normalizes it on every load:
the returned list has the same length and order; a record that already has an
id is returned unchanged; a record lacking an id (absent or null) keeps every
other field unchanged and gains a generated id that is non-empty, distinct
from every id already stored, and distinct from every other freshly assigned
id; the store itself is not rewritten on this path. The id-supply hypotheses
model `crypto.randomUUID` (distinct, non-empty, collision-free outputs). -/
theorem getPosts_load_normalizes
    (gen : Nat → String) (now : Int) (c : Nat) (store : Store)
    (raw : String) (items : List JValue)
    (hs : Store.get store "posts" = some raw) (hraw : raw ≠ "")
    (hp : jsonParse raw = some (JValue.arr items)) (hne : items ≠ [])
    (hclean : items.all cleanObj = true)
    (hinj : ∀ t1 t2, t1 < items.countP lacksId → t2 < items.countP lacksId →
      gen (c + t1) = gen (c + t2) → t1 = t2)
    (hfresh : ∀ t, t < items.countP lacksId →
      gen (c + t) ≠ "" ∧ gen (c + t) ∉ idStrs items) :
    (getPosts gen now c store).1.length = items.length ∧
    (getPosts gen now c store).2.1 = store ∧
    (∀ i, i < items.length →
      (lacksId (items.getD i JValue.null) = false →
        (getPosts gen now c store).1.getD i JValue.null = items.getD i JValue.null) ∧
      (lacksId (items.getD i JValue.null) = true →
        sansId ((getPosts gen now c store).1.getD i JValue.null) =
          sansId (items.getD i JValue.null) ∧
        ∃ s, getId ((getPosts gen now c store).1.getD i JValue.null) =
            some (JValue.str s) ∧ s ≠ "" ∧ s ∉ idStrs items ∧
          ∀ j, j < items.length → j ≠ i →
            lacksId (items.getD j JValue.null) = true →
            getId ((getPosts gen now c store).1.getD j JValue.null) ≠
              some (JValue.str s))) := by
  have hbranch : getPosts gen now c store =
      ((normalizePosts gen c items).1, store, (normalizePosts gen c items).2) := by
    unfold getPosts
    simp only [hs, if_neg hraw, hp]
    rw [if_neg (by simpa [List.isEmpty_iff] using hne)]
  rw [hbranch]
  have hcl : ∀ q ∈ items, cleanObj q = true := List.all_eq_true.mp hclean
  refine ⟨normalizePosts_length gen items c, rfl, ?_⟩
  intro i hi
  constructor
  · intro hlf
    rw [normalizePosts_getD gen items c i hi]
    exact normalizeOne_keep gen _ _ (hcl _ (getD_mem items i hi)) hlf
  · intro hlt
    rw [normalizePosts_getD gen items c i hi]
    obtain ⟨hsans, hgid⟩ := normalizeOne_lack gen (c + (items.take i).countP lacksId)
      (items.getD i JValue.null) (hcl _ (getD_mem items i hi)) hlt
    have hib : (items.take i).countP lacksId < items.countP lacksId :=
      countP_take_lt_total items i hi hlt
    refine ⟨hsans, gen (c + (items.take i).countP lacksId), hgid,
      (hfresh _ hib).1, (hfresh _ hib).2, ?_⟩
    intro j hj hji hlj
    rw [normalizePosts_getD gen items c j hj]
    obtain ⟨_, hgidj⟩ := normalizeOne_lack gen (c + (items.take j).countP lacksId)
      (items.getD j JValue.null) (hcl _ (getD_mem items j hj)) hlj
    rw [hgidj]
    intro heq
    have hjb : (items.take j).countP lacksId < items.countP lacksId :=
      countP_take_lt_total items j hj hlj
    have hgg : gen (c + (items.take j).countP lacksId) =
        gen (c + (items.take i).countP lacksId) := by
      injection heq with h1
      injection h1
    have hcc := hinj _ _ hjb hib hgg
    rcases Nat.lt_or_ge j i with hlt2 | hge
    · have := countP_take_strict items j i hlt2 (le_of_lt hi) hlj
      omega
    · have hlt3 : i < j := lt_of_le_of_ne hge (fun hh => hji hh.symm)
      have := countP_take_strict items i j hlt3 (le_of_lt hj) hlt
      omega

def genW : Nat → String := fun _ => "fresh1"

def rawW : String := "[\x7b\"title\":\"a\"\x7d,\x7b\"id\":\"k\",\"title\":\"b\"\x7d]"

def itemsW : List JValue :=
  [JValue.obj [("title", JValue.str "a")],
   JValue.obj [("id", JValue.str "k"), ("title", JValue.str "b")]]

def storeW : Store := [("posts", rawW)]

theorem getPosts_load_normalizes_witness :
    (getPosts genW 999 0 storeW).1.length = itemsW.length ∧
    sansId ((getPosts genW 999 0 storeW).1.getD 0 JValue.null) =
      sansId (itemsW.getD 0 JValue.null) := by
  have h := getPosts_load_normalizes genW 999 0 storeW rawW itemsW rfl (by decide) rfl
    (List.cons_ne_nil _ _) rfl
    (fun t1 t2 h1 h2 _ => by
      have hcp : List.countP lacksId itemsW = 1 := rfl
      rw [hcp] at h1 h2
      omega)
    (fun t ht =>
      ⟨fun hh => absurd hh (by decide : ("fresh1" : String) ≠ ""),
       fun hh => absurd hh (by decide : ("fresh1" : String) ∉ (["k"] : List String))⟩)
  exact ⟨h.1, ((h.2.2 0 (by decide)).2 rfl).1⟩
